import Mathlib

/-!
Shallow embedding of `GLShaderValidator.py` (a Sublime Text plugin that runs
the ANGLE `essl_to_glsl` compiler on shader files and maps its textual
diagnostics back to regions of the source buffer).

Text is modelled as `List Char`.  A Sublime `Region` is a pair of `Int`
endpoints.  The subprocess itself is external: `validate_contents` is split
into `buildInvocation` (the command line, working directory and stream merge
of lines 41-60) and the output-processing loop of lines 62-105, which takes
the raw output lines as input.  A Python `IndexError` (line 86,
`fileLines[errorLine]`) is modelled as the `Except.error` outcome; Python's
negative list indexing is modelled by `pyIndex`.
-/

namespace GLShaderValidator

/-- A Sublime `Region`: two `Int` endpoints `a`, `b`; `start` is
`begin()` (the smaller), `stop` is `end()` (the larger). -/
structure Region where
  a : Int
  b : Int
deriving DecidableEq, Repr

/-- Sublime `Region.begin()`. -/
def Region.start (r : Region) : Int := min r.a r.b

/-- Sublime `Region.end()`. -/
def Region.stop (r : Region) : Int := max r.a r.b

/-- Sublime `Region.contains(region)`: the argument lies inside `r`. -/
def Region.contains (r x : Region) : Bool :=
  decide (r.start ≤ x.start) && decide (x.stop ≤ r.stop)

/-- The source buffer of a Sublime view.  Its text is the single source of
truth; line regions and searches are derived from it. -/
structure View where
  text : List Char
deriving DecidableEq, Repr

/-- Sublime `view.size()`. -/
def View.size (v : View) : Nat := v.text.length

/-- Helper for `View.lines`: walk the text accumulating the span of each
line (newline characters separate lines and belong to no line). -/
def lineSpansAux : List Char → Nat → Nat → List Region
  | [], lineStart, pos => [⟨(lineStart : Int), (pos : Int)⟩]
  | c :: cs, lineStart, pos =>
    if c = '\n' then ⟨(lineStart : Int), (pos : Int)⟩ :: lineSpansAux cs (pos + 1) (pos + 1)
    else lineSpansAux cs lineStart (pos + 1)

/-- Sublime `view.lines(sublime.Region(0, view.size()))`: the spans of all
lines of the buffer (line 43-45 of the source). -/
def View.lines (v : View) : List Region := lineSpansAux v.text 0 0

/-- Python list indexing, `xs[i]`: non-negative indices from the front,
negative indices from the back, `none` = `IndexError`. -/
def pyIndex {α : Type} (xs : List α) (i : Int) : Option α :=
  if 0 ≤ i then xs.get? i.toNat
  else if -(xs.length : Int) ≤ i then xs.get? (xs.length - (-i).toNat)
  else none

/-- The token occurs verbatim in `text` starting at index `i`. -/
def matchAt (text tok : List Char) (i : Nat) : Bool :=
  tok.isPrefixOf (text.drop i)

/-- Linear scan for the first occurrence of `tok` at or after index `i`,
with explicit fuel. -/
def findFromAux (text tok : List Char) : Nat → Nat → Option Nat
  | _, 0 => none
  | i, fuel + 1 => if matchAt text tok i then some i else findFromAux text tok (i + 1) fuel

/-- Sublime `view.find(tok, fromPos, sublime.LITERAL)`: the region of the
first literal occurrence of `tok` starting at or after `fromPos`, or `none`
when there is no such occurrence. -/
def View.find (v : View) (tok : List Char) (fromPos : Int) : Option Region :=
  match findFromAux v.text tok fromPos.toNat (v.text.length + 1 - fromPos.toNat) with
  | some i => some ⟨(i : Int), ((i + tok.length : Nat) : Int)⟩
  | none => none

/-- Substring test, used to model Python's unanchored `re.search` with a
literal pattern. -/
def containsSub (hay pat : List Char) : Bool :=
  (findFromAux hay pat 0 (hay.length + 1)).isSome

/-- Line 70: `re.search("permission denied", e, flags=re.IGNORECASE)` —
case-insensitive substring match. -/
def permissionDeniedLine (e : List Char) : Bool :=
  containsSub (e.map Char.toLower) ("permission denied".toList)

/-- Line 75: `re.search("^####", e)` — the line starts with `####`. -/
def commentLine (e : List Char) : Bool :=
  ("####".toList).isPrefixOf e

/-- Consume a literal piece of the pattern: `some` of the rest of the input
when `lit` is a prefix of it, `none` otherwise. -/
def dropLit (lit s : List Char) : Option (List Char) :=
  if lit.isPrefixOf s then some (s.drop lit.length) else none

/-- Decimal value of a digit string, as Python's `int` computes it on the
digits captured by `(\d+)`. -/
def digitsToNat (ds : List Char) : Nat :=
  ds.foldl (fun acc c => acc * 10 + (c.toNat - ('0').toNat)) 0

/-- Line 22/78: `re.compile("ERROR: 0:(\d+): '([^\']*)' : (.*)").match(e)`.
An anchored match of the fixed grammar: the literal `ERROR: 0:`, a maximal
non-empty digit run (group 1), the literal `: '`, a maximal run of
non-quote characters (group 2), the literal `' : `, and the rest of the
line up to a newline (group 3; `.` does not match a newline, which is how
the trailing newline kept by `readlines` is excluded from the message).
Greedy matching with backtracking collapses to maximal munch here because
each captured run is followed by a literal its own characters cannot
start. -/
def parseErrorLine (e : List Char) : Option (Nat × List Char × List Char) :=
  match dropLit ("ERROR: 0:".toList) e with
  | none => none
  | some s1 =>
    let ds := s1.takeWhile Char.isDigit
    if ds = [] then none
    else
      match dropLit (": '".toList) (s1.drop ds.length) with
      | none => none
      | some s2 =>
        let tok := s2.takeWhile (fun c => c != '\'')
        match dropLit ("' : ".toList) (s2.drop tok.length) with
        | none => none
        | some s3 => some (digitsToNat ds, tok, s3.takeWhile (fun c => c != '\n'))

/-- The `(errorLine, errorToken, errorDescription)` triple of lines 83-85:
the captured groups with the reported line number converted to a 0-based
`Int` by subtracting one. -/
def parsedFields (e : List Char) : Option (Int × List Char × List Char) :=
  (parseErrorLine e).map (fun x => ((x.1 : Int) - 1, x.2.1, x.2.2))

/-- The error object of lines 8-15: a region and a message. -/
structure GLShaderError where
  region : Region
  message : List Char
deriving DecidableEq, Repr

/-- Lines 88-98: when the token is non-empty, search for it literally from
the start of the implicated line and, when found, use that occurrence as
the error region; otherwise keep the full-line region. -/
def refineLocation (v : View) (tok : List Char) (errorLocation : Region) : Region :=
  if 0 < tok.length then
    match v.find tok errorLocation.start with
    | some betterLocation => betterLocation
    | none => errorLocation
  else errorLocation

/-- What one iteration of the loop of lines 66-103 does with one output
line. -/
inductive LineStep where
  | permission
  | skip
  | diag (err : GLShaderError)
  | crash
deriving DecidableEq, Repr

/-- One iteration of the loop of lines 66-103: the permission-denied check
first (line 70), then the `####` comment filter (line 75), then the pattern
match; a matched line indexes `fileLines[errorLine]` (line 86), which
raises `IndexError` (`crash`) when the index is out of Python range, and
otherwise yields an error whose region may be refined by `view.find`. -/
def processLine (v : View) (e : List Char) : LineStep :=
  if permissionDeniedLine e then .permission
  else if commentLine e then .skip
  else
    match parseErrorLine e with
    | none => .skip
    | some (n, tok, desc) =>
      match pyIndex v.lines ((n : Int) - 1) with
      | none => .crash
      | some errorLocation => .diag ⟨refineLocation v tok errorLocation, desc⟩

/-- Observable outcome of `validate_contents`: whether the modal alert of
line 71 was shown, and either the returned error list or the propagated
`IndexError`. -/
structure ValidateOutcome where
  alerted : Bool
  result : Except Unit (List GLShaderError)
deriving Repr

instance : DecidableEq (Except Unit (List GLShaderError)) := fun x y =>
  match x, y with
  | Except.ok a, Except.ok b =>
    if h : a = b then isTrue (by rw [h]) else isFalse (by simp [h])
  | Except.error a, Except.error b =>
    isTrue (by rw [Unit.ext a b])
  | Except.ok _, Except.error _ => isFalse (by simp)
  | Except.error _, Except.ok _ => isFalse (by simp)

instance : DecidableEq ValidateOutcome := fun x y =>
  match x, y with
  | ⟨a1, r1⟩, ⟨a2, r2⟩ =>
    if h : a1 = a2 ∧ r1 = r2 then isTrue (by rw [h.1, h.2])
    else isFalse (by intro he; cases he; exact h ⟨rfl, rfl⟩)

/-- The loop of lines 66-105 over the remaining output lines, with the
errors accumulated so far: a permission-denied line returns `[]` at once
(after the alert), an `IndexError` aborts the run, and every other line
either appends one error or is ignored. -/
def processLinesFrom (v : View) : List (List Char) → List GLShaderError → ValidateOutcome
  | [], acc => ⟨false, Except.ok acc⟩
  | e :: rest, acc =>
    match processLine v e with
    | .permission => ⟨true, Except.ok []⟩
    | .skip => processLinesFrom v rest acc
    | .diag d => processLinesFrom v rest (acc ++ [d])
    | .crash => ⟨false, Except.error ()⟩

/-- Lines 62-105 of `ANGLECommandLine.validate_contents`, given the output
lines read from the subprocess. -/
def validate_contents (v : View) (errlines : List (List Char)) : ValidateOutcome :=
  processLinesFrom v errlines []

/-- Value of `sublime.platform()`. -/
inductive Platform where
  | osx
  | linux
  | windows
deriving DecidableEq, Repr

/-- The `ANGLEPath` dictionary of lines 24-28, indexed by platform. -/
def ANGLEPath : Platform → List Char
  | .osx => "./essl_to_glsl".toList
  | .linux => "./essl_to_glsl".toList
  | .windows => "./essl_to_glsl.exe".toList

/-- Lines 46-51: the spec switch is `-s=w` unless the view's `glsv_spec`
setting equals `1`, in which case it is dropped (empty). -/
def specCmd (glsv_spec : Option Int) : List Char :=
  if glsv_spec = some 1 then [] else "-s=w".toList

/-- The subprocess invocation of lines 55-60: the shell command string, the
working directory, and whether stderr is merged into stdout. -/
structure Invocation where
  cmd : List Char
  cwd : List Char
  stderrToStdout : Bool
deriving DecidableEq, Repr

/-- Lines 55-60: the command is `ANGLEPath + ' ' + specCmd + ' ' +
view.file_name()`, run with `cwd` the plugin's own directory under the
packages path and `stderr=subprocess.STDOUT`. -/
def buildInvocation (plat : Platform) (glsv_spec : Option Int)
    (fileName packagesPath : List Char) : Invocation :=
  ⟨ANGLEPath plat ++ (" ").toList ++ specCmd glsv_spec ++ (" ").toList ++ fileName,
   packagesPath ++ ("/GLShaderValidator/").toList,
   true⟩

/-- Lines 167-173: `re.search('GLSL|ESSL', syntax, flags=re.IGNORECASE)` on
the view's syntax setting (`none` when the setting is absent). -/
def is_glsl_or_essl (synTag : Option (List Char)) : Bool :=
  match synTag with
  | none => false
  | some s =>
    containsSub (s.map Char.toLower) ("glsl".toList)
      || containsSub (s.map Char.toLower) ("essl".toList)

/-- A Python `$` anchor (no MULTILINE) also matches just before one final
newline; strip that newline so the anchor becomes a plain suffix test. -/
def dollarTrim (s : List Char) : List Char :=
  if s.getLast? = some '\n' then s.dropLast else s

/-- Lines 175-178: `re.search('(frag|vert)$', view.file_name())` — the file
name ends in `frag` or `vert` (no dot required by the pattern). -/
def is_valid_file_ending (fileName : List Char) : Bool :=
  ("frag".toList).isSuffixOf (dollarTrim fileName)
    || ("vert".toList).isSuffixOf (dollarTrim fileName)

/-- What a call to `run_validator` (lines 224-255) decides: whether
`validate_contents` is invoked, and the status text it sets (the status is
first erased, so `none` means no status shown). -/
structure RunReport where
  ran : Bool
  statusMsg : Option (List Char)
deriving DecidableEq, Repr

/-- Lines 224-255 of `GLShaderValidatorCommand.run_validator`, after
`apply_settings`: early return when `glsv_enabled` is `0`, early return
when the syntax is not GLSL/ESSL, then the file-ending gate deciding
between running the pipeline and setting the status message. -/
def run_validator (enabled : Option Int) (synTag : Option (List Char))
    (fileName : List Char) : RunReport :=
  if enabled = some 0 then ⟨false, none⟩
  else if is_glsl_or_essl synTag = false then ⟨false, none⟩
  else if is_valid_file_ending fileName then ⟨true, none⟩
  else ⟨false, some ("File name must end in .frag or .vert".toList)⟩

/-- The mutable state of the single `GLShaderValidatorCommand` event
listener that Sublime shares across all views: one `errors` field
(line 111), not one per document. -/
structure ListenerState where
  errors : Option (List GLShaderError)
deriving DecidableEq, Repr

/-- One full `run_validator` pass including its effect on `self.errors`
(line 251): when the pipeline runs and `validate_contents` returns, the
shared `errors` field is replaced; when it raises, the exception propagates
and `errors` is left unchanged. -/
def run_validator_full (st : ListenerState) (enabled : Option Int)
    (synTag : Option (List Char)) (fileName : List Char)
    (v : View) (errlines : List (List Char)) : ListenerState × RunReport :=
  let rep := run_validator enabled synTag fileName
  if rep.ran then
    match validate_contents v errlines with
    | ⟨_, Except.ok errs⟩ => (⟨some errs⟩, rep)
    | ⟨_, Except.error _⟩ => (st, rep)
  else (st, rep)

/-- The nested loops of lines 205-210: for each selection in order, the
first stored error whose region contains it; the first hit is displayed. -/
def firstCovering (errs : List GLShaderError) : List Region → Option (List Char)
  | [] => none
  | sel :: rest =>
    match errs.find? (fun er => er.region.contains sel) with
    | some er => some er.message
    | none => firstCovering errs rest

/-- Lines 197-210 of `on_selection_modified`: the status text shown for the
current selections, read from the shared listener state (`none` when the
status stays erased). -/
def on_selection_modified (st : ListenerState) (synTag : Option (List Char))
    (sels : List Region) : Option (List Char) :=
  if is_glsl_or_essl synTag = true then
    match st.errors with
    | some errs => firstCovering errs sels
    | none => none
  else none

/-! Infrastructure lemmas. -/

/-- Consuming a literal that the input begins with yields the rest. -/
theorem dropLit_append (l m : List Char) : dropLit l (l ++ m) = some m := by
  have h : l.isPrefixOf (l ++ m) = true :=
    List.isPrefixOf_iff_prefix.mpr (List.prefix_append l m)
  simp [dropLit, h]

/-- A maximal munch over `ds ++ rest` stops exactly at `rest` when every
character of `ds` satisfies the predicate and the head of `rest` does
not. -/
theorem takeWhile_append_all (p : Char → Bool) :
    ∀ ds rest : List Char, (∀ c ∈ ds, p c = true) →
      (∀ c, rest.head? = some c → p c = false) →
      (ds ++ rest).takeWhile p = ds := by
  intro ds
  induction ds with
  | nil =>
    intro rest _ h2
    cases rest with
    | nil => rfl
    | cons c t => simp [List.takeWhile_cons, h2 c rfl]
  | cons d ds ih =>
    intro rest h1 h2
    have hd : p d = true := h1 d (by simp)
    simp only [List.cons_append, List.takeWhile_cons, hd, if_true]
    rw [ih rest (fun c hc => h1 c (by simp [hc])) h2]

/-- Evaluation of the diagnostic-line matcher on a line of the exact
well-formed shape: the captured groups are the number, the token and the
description (the description clipped at a newline, as `.` does not match
one). -/
theorem parse_wellFormed (ds T D : List Char)
    (hds : ds ≠ []) (hdig : ∀ c ∈ ds, c.isDigit = true)
    (hT : ∀ c ∈ T, (c != '\'') = true) :
    parseErrorLine ("ERROR: 0:".toList ++ ds ++ ": '".toList ++ T ++ "' : ".toList ++ D)
      = some (digitsToNat ds, T, D.takeWhile (fun c => c != '\n')) := by
  have e1 := dropLit_append ("ERROR: 0:".toList)
    (ds ++ (": '".toList ++ (T ++ ("' : ".toList ++ D))))
  have e2 : (ds ++ (": '".toList ++ (T ++ ("' : ".toList ++ D)))).takeWhile Char.isDigit
      = ds := by
    apply takeWhile_append_all _ _ _ hdig
    intro c hc
    have hh : (": '".toList ++ (T ++ ("' : ".toList ++ D))).head? = some ':' := rfl
    rw [hh] at hc
    injection hc with hc
    subst hc
    decide
  have e3 : (ds ++ (": '".toList ++ (T ++ ("' : ".toList ++ D)))).drop ds.length
      = ": '".toList ++ (T ++ ("' : ".toList ++ D)) := List.drop_left _ _
  have e4 := dropLit_append (": '".toList) (T ++ ("' : ".toList ++ D))
  have e5 : (T ++ ("' : ".toList ++ D)).takeWhile (fun c => c != '\'') = T := by
    apply takeWhile_append_all _ _ _ hT
    intro c hc
    have hh : ("' : ".toList ++ D).head? = some '\'' := rfl
    rw [hh] at hc
    injection hc with hc
    subst hc
    decide
  have e6 : (T ++ ("' : ".toList ++ D)).drop T.length = "' : ".toList ++ D :=
    List.drop_left _ _
  have e7 := dropLit_append ("' : ".toList) D
  simp only [parseErrorLine, List.append_assoc, e1, e2, e3, e4, e5, e6, e7, hds,
    if_false]

/-- A successful fuelled scan returns the first occurrence at or after the
start index. -/
theorem findFromAux_eq_some (text tok : List Char) :
    ∀ fuel start i, findFromAux text tok start fuel = some i →
      start ≤ i ∧ i < start + fuel ∧ matchAt text tok i = true ∧
        ∀ j, start ≤ j → j < i → matchAt text tok j = false := by
  intro fuel
  induction fuel with
  | zero => intro start i h; simp [findFromAux] at h
  | succ fuel ih =>
    intro start i h
    rw [findFromAux] at h
    by_cases hm : matchAt text tok start = true
    · rw [if_pos hm] at h
      injection h with h
      subst h
      exact ⟨Nat.le_refl _, by omega, hm, fun j h1 h2 => absurd (Nat.lt_of_lt_of_le h2 h1) (Nat.lt_irrefl _)⟩
    · rw [if_neg hm] at h
      obtain ⟨h1, h2, h3, h4⟩ := ih (start + 1) i h
      refine ⟨by omega, by omega, h3, fun j hj1 hj2 => ?_⟩
      rcases Nat.eq_or_lt_of_le hj1 with he | hl
      · rw [← he]; exact Bool.eq_false_iff.mpr hm
      · exact h4 j hl hj2

/-- A failed fuelled scan means no occurrence in the scanned window. -/
theorem findFromAux_eq_none (text tok : List Char) :
    ∀ fuel start, findFromAux text tok start fuel = none →
      ∀ j, start ≤ j → j < start + fuel → matchAt text tok j = false := by
  intro fuel
  induction fuel with
  | zero => intro start _ j h1 h2; omega
  | succ fuel ih =>
    intro start h j h1 h2
    rw [findFromAux] at h
    by_cases hm : matchAt text tok start = true
    · rw [if_pos hm] at h; exact absurd h (by simp)
    · rw [if_neg hm] at h
      rcases Nat.eq_or_lt_of_le h1 with he | hl
      · rw [← he]; exact Bool.eq_false_iff.mpr hm
      · exact ih (start + 1) h j hl (by omega)

/-- A non-empty token can only occur strictly inside the text. -/
theorem matchAt_lt (text tok : List Char) (i : Nat)
    (htok : tok ≠ []) (h : matchAt text tok i = true) : i < text.length := by
  have hp : tok <+: text.drop i := List.isPrefixOf_iff_prefix.mp h
  have hlen : tok.length ≤ (text.drop i).length := hp.length_le
  rw [List.length_drop] at hlen
  have : 0 < tok.length := List.length_pos.mpr htok
  omega

/-- When `view.find` fails, the token has no occurrence at or after the
start position. -/
theorem find_none_spec (v : View) (tok : List Char) (fromPos : Int)
    (htok : tok ≠ []) (hpos : 0 ≤ fromPos)
    (h : v.find tok fromPos = none) :
    ∀ i : Nat, fromPos ≤ (i : Int) → matchAt v.text tok i = false := by
  intro i hi
  by_contra hm
  have hm : matchAt v.text tok i = true := by
    cases hmc : matchAt v.text tok i
    · exact absurd hmc hm
    · rfl
  have hlt : i < v.text.length := matchAt_lt _ _ _ htok hm
  have hstart : (fromPos.toNat : Int) = fromPos := Int.toNat_of_nonneg hpos
  have hsi : fromPos.toNat ≤ i := by omega
  rw [View.find] at h
  rcases hf : findFromAux v.text tok fromPos.toNat (v.text.length + 1 - fromPos.toNat) with _ | j
  · have := findFromAux_eq_none v.text tok _ _ hf i hsi (by omega)
    rw [this] at hm
    exact Bool.false_ne_true hm
  · rw [hf] at h; exact absurd h (by simp)

/-- When `view.find` succeeds, it returns the span of the first occurrence
of the token at or after the start position. -/
theorem find_some_spec (v : View) (tok : List Char) (fromPos : Int) (r : Region)
    (hpos : 0 ≤ fromPos) (h : v.find tok fromPos = some r) :
    ∃ i : Nat, r = ⟨(i : Int), (i : Int) + (tok.length : Int)⟩ ∧ fromPos ≤ (i : Int) ∧
      matchAt v.text tok i = true ∧
      ∀ j : Nat, fromPos ≤ (j : Int) → j < i → matchAt v.text tok j = false := by
  have hstart : (fromPos.toNat : Int) = fromPos := Int.toNat_of_nonneg hpos
  rw [View.find] at h
  rcases hf : findFromAux v.text tok fromPos.toNat (v.text.length + 1 - fromPos.toNat) with _ | j
  · rw [hf] at h; exact absurd h (by simp)
  · rw [hf] at h
    injection h with h
    obtain ⟨h1, _, h3, h4⟩ := findFromAux_eq_some v.text tok _ _ _ hf
    have hcast : ((j + tok.length : Nat) : Int) = (j : Int) + (tok.length : Int) := by
      push_cast
      ring
    refine ⟨j, ?_, by omega, h3, fun k hk1 hk2 => h4 k (by omega) hk2⟩
    rw [← h, hcast]

/-- The line decomposition of a buffer is never empty. -/
theorem lineSpansAux_ne_nil : ∀ (text : List Char) (ls pos : Nat),
    lineSpansAux text ls pos ≠ [] := by
  intro text
  induction text with
  | nil => intro ls pos; simp [lineSpansAux]
  | cons c cs ih =>
    intro ls pos
    rw [lineSpansAux]
    by_cases hc : c = '\n'
    · simp [hc]
    · simpa [hc] using ih ls (pos + 1)

/-- A Sublime view always has at least one line. -/
theorem View.lines_ne_nil (v : View) : v.lines ≠ [] :=
  lineSpansAux_ne_nil v.text 0 0

/-- Indexing a list at its last position. -/
theorem get?_pred_length_eq_getLast? {α : Type} :
    ∀ l : List α, l.get? (l.length - 1) = l.getLast? := by
  intro l
  induction l with
  | nil => rfl
  | cons a t ih =>
    cases t with
    | nil => rfl
    | cons b u =>
      have : (a :: b :: u).get? ((a :: b :: u).length - 1) = (b :: u).get? ((b :: u).length - 1) := by
        simp [List.length_cons]
      rw [this, ih, List.getLast?_cons_cons]

/-- Python index `-1` on a non-empty list is its last element. -/
theorem pyIndex_neg_one {α : Type} (xs : List α) (hx : xs ≠ []) :
    pyIndex xs (-1) = xs.getLast? := by
  have hlen : 0 < xs.length := List.length_pos.mpr hx
  rw [pyIndex]
  rw [if_neg (by omega), if_pos (by omega)]
  have : xs.length - ((-(-1 : Int)).toNat) = xs.length - 1 := by norm_num
  rw [this, get?_pred_length_eq_getLast?]

/-- A `####` line cannot match the diagnostic pattern: the two literal
prefixes disagree on the first character. -/
theorem commentLine_no_parse (e : List Char) (h : commentLine e = true) :
    parseErrorLine e = none := by
  have hp : "####".toList <+: e := List.isPrefixOf_iff_prefix.mp h
  obtain ⟨t, ht⟩ := hp
  subst ht
  rfl

/-- A line that fails the diagnostic pattern is either the permission-denied
short-circuit or ignored. -/
theorem processLine_of_no_parse (v : View) (e : List Char)
    (h : parseErrorLine e = none) :
    processLine v e = LineStep.permission ∨ processLine v e = LineStep.skip := by
  rw [processLine]
  by_cases hp : permissionDeniedLine e = true
  · left; rw [if_pos hp]
  · right
    rw [if_neg hp]
    by_cases hc : commentLine e = true
    · rw [if_pos hc]
    · rw [if_neg hc, h]

/-- When no output line matches the diagnostic pattern the loop can only
end with the accumulated errors or with the permission-denied exit. -/
theorem processLinesFrom_no_match (v : View) :
    ∀ errlines acc, (∀ e ∈ errlines, parseErrorLine e = none) →
      processLinesFrom v errlines acc = ⟨false, Except.ok acc⟩ ∨
      processLinesFrom v errlines acc = ⟨true, Except.ok []⟩ := by
  intro errlines
  induction errlines with
  | nil => intro acc _; left; rfl
  | cons e rest ih =>
    intro acc h
    rw [processLinesFrom]
    rcases processLine_of_no_parse v e (h e (by simp)) with hs | hs
    · rw [hs]; right; rfl
    · rw [hs]; exact ih acc (fun x hx => h x (by simp [hx]))

/-- If every line before some permission-denied line processes without an
`IndexError`, the loop returns the alert outcome with an empty list. -/
theorem processLinesFrom_reach_permission (v : View) :
    ∀ pre pd post acc, processLine v pd = LineStep.permission →
      (∀ e ∈ pre, processLine v e ≠ LineStep.crash) →
      processLinesFrom v (pre ++ pd :: post) acc = ⟨true, Except.ok []⟩ := by
  intro pre
  induction pre with
  | nil =>
    intro pd post acc hpd _
    rw [List.nil_append, processLinesFrom, hpd]
  | cons e rest ih =>
    intro pd post acc hpd hpre
    rw [List.cons_append, processLinesFrom]
    rcases hs : processLine v e with _ | _ | d | _
    · rfl
    · exact ih pd post acc hpd (fun x hx => hpre x (by simp [hx]))
    · exact ih pd post (acc ++ [d]) hpd (fun x hx => hpre x (by simp [hx]))
    · exact absurd hs (hpre e (by simp))

/-- If every line before a crashing line is merely skipped or appended, the
loop aborts with the propagated `IndexError`. -/
theorem processLinesFrom_reach_crash (v : View) :
    ∀ pre e post acc, processLine v e = LineStep.crash →
      (∀ x ∈ pre, processLine v x = LineStep.skip ∨ ∃ d, processLine v x = LineStep.diag d) →
      processLinesFrom v (pre ++ e :: post) acc = ⟨false, Except.error ()⟩ := by
  intro pre
  induction pre with
  | nil =>
    intro e post acc he _
    rw [List.nil_append, processLinesFrom, he]
  | cons x rest ih =>
    intro e post acc he hpre
    rw [List.cons_append, processLinesFrom]
    rcases hpre x (by simp) with hs | ⟨d, hs⟩
    · rw [hs]; exact ih e post acc he (fun y hy => hpre y (by simp [hy]))
    · rw [hs]; exact ih e post (acc ++ [d]) he (fun y hy => hpre y (by simp [hy]))

/-- `List.find?` returns the first element satisfying the predicate, in
index terms. -/
theorem find?_first {α : Type} (p : α → Bool) :
    ∀ l : List α, (∃ a ∈ l, p a = true) →
      ∃ k a, l.get? k = some a ∧ p a = true ∧
        (∀ j b, j < k → l.get? j = some b → p b = false) ∧ l.find? p = some a := by
  intro l
  induction l with
  | nil => intro h; simp at h
  | cons x t ih =>
    intro h
    by_cases hx : p x = true
    · exact ⟨0, x, rfl, hx, fun j b hj _ => absurd hj (Nat.not_lt_zero j), by
        rw [List.find?_cons_of_pos _ hx]⟩
    · have hx' : p x = false := Bool.eq_false_iff.mpr hx
      obtain ⟨a, ha, hpa⟩ := h
      rcases List.mem_cons.mp ha with he | ht
      · subst he; exact absurd hpa hx
      · obtain ⟨k, a, h1, h2, h3, h4⟩ := ih ⟨a, ht, hpa⟩
        refine ⟨k + 1, a, by simpa using h1, h2, ?_, by
          rw [List.find?_cons_of_neg _ (by simp [hx']), h4]⟩
        intro j b hj hgb
        cases j with
        | zero =>
          injection hgb with hgb
          rw [← hgb]; exact hx'
        | succ j => exact h3 j b (by omega) (by simpa using hgb)

/-! Claim theorems. -/

/-- Claim C1: for every raw output line of the exact well-formed shape
`ERROR: 0:N: 'T' : D` — with `N` a non-empty decimal numeral, the quoted
token `T` free of quote characters and the description `D` free of
newlines (both forced by the shape: a quoted token cannot contain the
closing quote and an output line cannot contain a newline) — the matcher
and conversions of lines 78-85 yield the diagnostic fields
`sourceLine = N - 1`, `token = T` and `message = D`. -/
theorem claim_C1 (ds T D : List Char)
    (hds : ds ≠ []) (hdig : ∀ c ∈ ds, c.isDigit = true)
    (hT : ∀ c ∈ T, (c != '\'') = true) (hD : ∀ c ∈ D, (c != '\n') = true) :
    parsedFields ("ERROR: 0:".toList ++ ds ++ ": '".toList ++ T ++ "' : ".toList ++ D)
      = some ((digitsToNat ds : Int) - 1, T, D) := by
  have hparse := parse_wellFormed ds T D hds hdig hT
  have hDT : D.takeWhile (fun c => c != '\n') = D := List.takeWhile_eq_self_iff.mpr hD
  rw [hDT] at hparse
  unfold parsedFields
  rw [hparse]
  rfl

/-- Witness for C1 at the spec's own end-to-end example line. -/
theorem claim_C1_witness :
    parsedFields ("ERROR: 0:".toList ++ "3".toList ++ ": '".toList ++ "foo".toList
        ++ "' : ".toList ++ "no matching overloaded function found".toList)
      = some ((digitsToNat ("3".toList) : Int) - 1, "foo".toList,
          "no matching overloaded function found".toList) :=
  claim_C1 ("3".toList) ("foo".toList) ("no matching overloaded function found".toList)
    (by decide) (by decide) (by decide) (by decide)

/-- Claim C4: for a diagnostic with a non-empty token, if the token occurs
verbatim at or after the start of the implicated line's region, the
refinement of lines 88-98 replaces the region by the exact span of the
first such occurrence; if there is no such occurrence, the region keeps the
full implicated line (the diagnostic is produced either way: `processLine`
appends a `diag` with the refined region in both cases). -/
theorem claim_C4 (v : View) (tok : List Char) (loc : Region)
    (htok : tok ≠ []) (hpos : 0 ≤ loc.start) :
    ((∃ i : Nat, loc.start ≤ (i : Int) ∧ matchAt v.text tok i = true) →
      ∃ i : Nat, loc.start ≤ (i : Int) ∧ matchAt v.text tok i = true ∧
        (∀ j : Nat, loc.start ≤ (j : Int) → j < i → matchAt v.text tok j = false) ∧
        refineLocation v tok loc = ⟨(i : Int), (i : Int) + (tok.length : Int)⟩) ∧
    ((∀ i : Nat, loc.start ≤ (i : Int) → matchAt v.text tok i = false) →
      refineLocation v tok loc = loc) := by
  have hlen : 0 < tok.length := List.length_pos.mpr htok
  constructor
  · rintro ⟨i, hi, hm⟩
    rcases hf : v.find tok loc.start with _ | r
    · have := find_none_spec v tok loc.start htok hpos hf i hi
      rw [this] at hm
      exact absurd hm (by simp)
    · obtain ⟨k, hr, h1, h2, h3⟩ := find_some_spec v tok loc.start r hpos hf
      refine ⟨k, h1, h2, h3, ?_⟩
      simp only [refineLocation, hlen, if_true, hf]
      exact hr
  · intro h
    rcases hf : v.find tok loc.start with _ | r
    · simp [refineLocation, hlen, hf]
    · obtain ⟨k, hr, h1, h2, h3⟩ := find_some_spec v tok loc.start r hpos hf
      rw [h k h1] at h2
      exact absurd h2 (by simp)

/-- Witness for C4: the token `b` in the buffer `abc abc`, implicated line
the whole buffer; the region becomes the span of the first occurrence. -/
theorem claim_C4_witness :
    ∃ i : Nat, (⟨0, 7⟩ : Region).start ≤ (i : Int)
      ∧ matchAt ("abc abc".toList) ("b".toList) i = true
      ∧ (∀ j : Nat, (⟨0, 7⟩ : Region).start ≤ (j : Int) → j < i →
          matchAt ("abc abc".toList) ("b".toList) j = false)
      ∧ refineLocation ⟨"abc abc".toList⟩ ("b".toList) ⟨0, 7⟩
          = ⟨(i : Int), (i : Int) + (("b".toList).length : Int)⟩ :=
  (claim_C4 ⟨"abc abc".toList⟩ ("b".toList) ⟨0, 7⟩ (by decide) (by decide)).1
    ⟨1, by decide, by decide⟩

/-- Claim C7: for a shader view, the cursor query of lines 197-210 shows
nothing when the stored diagnostic list is empty, and when one or more
stored diagnostics cover the queried position it shows the message of the
first covering diagnostic in stored order. -/
theorem claim_C7 (synTag : Option (List Char)) (errs : List GLShaderError) (p : Int)
    (hshader : is_glsl_or_essl synTag = true) :
    (errs = [] → on_selection_modified ⟨some errs⟩ synTag [⟨p, p⟩] = none) ∧
    ((∃ er ∈ errs, er.region.contains ⟨p, p⟩ = true) →
      ∃ k er, errs.get? k = some er ∧ er.region.contains ⟨p, p⟩ = true ∧
        (∀ j er', j < k → errs.get? j = some er' → er'.region.contains ⟨p, p⟩ = false) ∧
        on_selection_modified ⟨some errs⟩ synTag [⟨p, p⟩] = some er.message) := by
  constructor
  · intro he
    subst he
    simp [on_selection_modified, hshader, firstCovering]
  · rintro ⟨er, her, hp⟩
    obtain ⟨k, a, h1, h2, h3, h4⟩ :=
      find?_first (fun er => er.region.contains ⟨p, p⟩) errs ⟨er, her, hp⟩
    refine ⟨k, a, h1, h2, h3, ?_⟩
    simp [on_selection_modified, hshader, firstCovering, h4]

/-- Witness for C7: position 5 is covered by the second stored diagnostic
only, so its message is shown. -/
theorem claim_C7_witness :
    ∃ k er, ([⟨⟨0, 1⟩, "one".toList⟩, ⟨⟨4, 9⟩, "two".toList⟩] : List GLShaderError).get? k
        = some er ∧ er.region.contains ⟨5, 5⟩ = true ∧
      (∀ j er', j < k →
        ([⟨⟨0, 1⟩, "one".toList⟩, ⟨⟨4, 9⟩, "two".toList⟩] : List GLShaderError).get? j
          = some er' → er'.region.contains ⟨5, 5⟩ = false) ∧
      on_selection_modified ⟨some [⟨⟨0, 1⟩, "one".toList⟩, ⟨⟨4, 9⟩, "two".toList⟩]⟩
          (some ("GLSL".toList)) [⟨5, 5⟩] = some er.message :=
  (claim_C7 (some ("GLSL".toList)) [⟨⟨0, 1⟩, "one".toList⟩, ⟨⟨4, 9⟩, "two".toList⟩] 5
      (by decide)).2 ⟨⟨⟨4, 9⟩, "two".toList⟩, by decide, by decide⟩

/-- Claim C8: raw output with zero lines matching the diagnostic pattern —
banner `####` lines and arbitrary junk included — makes `validate_contents`
return the empty list (the permission branch also returns `[]`), and a line
beginning with `####` can neither match the pattern nor produce a
diagnostic, whatever its remaining content. -/
theorem claim_C8 (v : View) (errlines : List (List Char))
    (h : ∀ e ∈ errlines, parseErrorLine e = none) :
    (validate_contents v errlines).result = Except.ok [] ∧
      ∀ (w : View) (e : List Char), commentLine e = true →
        parseErrorLine e = none ∧ ∀ d, processLine w e ≠ LineStep.diag d := by
  constructor
  · rw [validate_contents]
    rcases processLinesFrom_no_match v errlines [] h with hr | hr <;> rw [hr]
  · intro w e hc
    refine ⟨commentLine_no_parse e hc, fun d => ?_⟩
    rcases processLine_of_no_parse w e (commentLine_no_parse e hc) with hs | hs <;> simp [hs]

/-- Witness for C8 on a banner line plus a junk line. -/
theorem claim_C8_witness :
    (validate_contents ⟨"x".toList⟩
        [("#### some banner".toList), ("junk line".toList)]).result = Except.ok [] ∧
      ∀ (w : View) (e : List Char), commentLine e = true →
        parseErrorLine e = none ∧ ∀ d, processLine w e ≠ LineStep.diag d :=
  claim_C8 ⟨"x".toList⟩ [("#### some banner".toList), ("junk line".toList)] (by decide)

/-- Claim C9: the command line of lines 46-60 carries the default spec
switch `-s=w` exactly when the view's `glsv_spec` setting is not `1`; the
file path is appended in both cases, the working directory is the plugin's
own directory under the packages path, and stderr is merged into stdout. -/
theorem claim_C9 (plat : Platform) (glsv_spec : Option Int)
    (fileName packagesPath : List Char) :
    (glsv_spec ≠ some 1 →
      specCmd glsv_spec = "-s=w".toList ∧
      (buildInvocation plat glsv_spec fileName packagesPath).cmd
        = ANGLEPath plat ++ (" -s=w ").toList ++ fileName) ∧
    (glsv_spec = some 1 →
      specCmd glsv_spec = [] ∧
      (buildInvocation plat glsv_spec fileName packagesPath).cmd
        = ANGLEPath plat ++ ("  ").toList ++ fileName) ∧
    (buildInvocation plat glsv_spec fileName packagesPath).cwd
      = packagesPath ++ ("/GLShaderValidator/").toList ∧
    (buildInvocation plat glsv_spec fileName packagesPath).stderrToStdout = true := by
  refine ⟨fun h => ⟨by simp [specCmd, h], ?_⟩, fun h => ⟨by simp [specCmd, h], ?_⟩, rfl, rfl⟩
  · simp [buildInvocation, specCmd, h]
  · simp [buildInvocation, specCmd, h]

/-- Witness for C9 at both values of the spec setting. -/
theorem claim_C9_witness :
    (specCmd (some 0) = "-s=w".toList ∧
      (buildInvocation Platform.osx (some 0) ("/a.frag".toList) ("/pkg".toList)).cmd
        = ANGLEPath Platform.osx ++ (" -s=w ").toList ++ "/a.frag".toList) ∧
    (specCmd (some 1) = [] ∧
      (buildInvocation Platform.osx (some 1) ("/a.frag".toList) ("/pkg".toList)).cmd
        = ANGLEPath Platform.osx ++ ("  ").toList ++ "/a.frag".toList) :=
  ⟨(claim_C9 Platform.osx (some 0) ("/a.frag".toList) ("/pkg".toList)).1 (by decide),
   (claim_C9 Platform.osx (some 1) ("/a.frag".toList) ("/pkg".toList)).2.1 rfl⟩

/-- Claim C10: a well-formed line reporting compiler line number `0` (so
`errorLine = 0 - 1 = -1`) is neither skipped nor an out-of-range condition:
Python's negative indexing makes `fileLines[-1]` the document's last line,
and the loop produces a diagnostic whose initial region is that last line's
span (the token hypothesis excludes the permission-denied substring so the
line reaches the pattern match, as any real diagnostic line does). -/
theorem claim_C10 (v : View) (T D line : List Char)
    (hline : line = "ERROR: 0:".toList ++ "0".toList ++ ": '".toList ++ T
      ++ "' : ".toList ++ D)
    (hv : v.text ≠ [])
    (hT : ∀ c ∈ T, (c != '\'') = true) (hD : ∀ c ∈ D, (c != '\n') = true)
    (hpd : permissionDeniedLine line = false) :
    parsedFields line = some (-1, T, D) ∧
    v.lines ≠ [] ∧
    ∃ loc, pyIndex v.lines (-1) = some loc ∧ v.lines.getLast? = some loc ∧
      processLine v line = LineStep.diag ⟨refineLocation v T loc, D⟩ := by
  have hparse := parse_wellFormed ("0".toList) T D (by decide) (by decide) hT
  have hDT : D.takeWhile (fun c => c != '\n') = D := List.takeWhile_eq_self_iff.mpr hD
  rw [hDT] at hparse
  rw [← hline] at hparse
  have hd0 : digitsToNat ("0".toList) = 0 := by decide
  rw [hd0] at hparse
  have hnil : v.lines ≠ [] := v.lines_ne_nil
  have hlast : v.lines.getLast? = some (v.lines.getLast hnil) :=
    List.getLast?_eq_getLast_of_ne_nil hnil
  have hcomment : commentLine line = false := by
    subst hline
    rfl
  have hpy : pyIndex v.lines ((0 : Int) - 1) = some (v.lines.getLast hnil) := by
    have : ((0 : Int) - 1) = -1 := by norm_num
    rw [this, pyIndex_neg_one v.lines hnil, hlast]
  refine ⟨?_, hnil, v.lines.getLast hnil, by simpa using hpy, hlast, ?_⟩
  · rw [parsedFields, hparse]
    norm_num
  · simp only [processLine, hpd, hcomment, Bool.false_eq_true, if_false, hparse,
      Nat.cast_zero, hpy]

/-- Witness for C10: a two-line document; the reported line `0` lands on
the last line, and the token `c` is refined inside it. -/
theorem claim_C10_witness :
    parsedFields ("ERROR: 0:0: 'c' : msg".toList) = some (-1, "c".toList, "msg".toList) ∧
    (View.lines ⟨"ab\ncd".toList⟩) ≠ [] ∧
    ∃ loc, pyIndex (View.lines ⟨"ab\ncd".toList⟩) (-1) = some loc ∧
      (View.lines ⟨"ab\ncd".toList⟩).getLast? = some loc ∧
      processLine ⟨"ab\ncd".toList⟩ ("ERROR: 0:0: 'c' : msg".toList)
        = LineStep.diag ⟨refineLocation ⟨"ab\ncd".toList⟩ ("c".toList) loc, "msg".toList⟩ :=
  claim_C10 ⟨"ab\ncd".toList⟩ ("c".toList) ("msg".toList) ("ERROR: 0:0: 'c' : msg".toList)
    (by decide) (by decide) (by decide) (by decide) (by decide)

/-- Claim C2 counterexample: a well-formed diagnostic line with an
out-of-range line number placed before the permission-denied line makes
`fileLines[errorLine]` raise `IndexError` first (document `x` has one
line, the line reports line 10): the run aborts with the propagated
exception — no alert is surfaced and no empty list is returned — even
though an output line matches the permission-denied signature, so the
claimed unconditional short-circuit fails. -/
theorem claim_C2_counterexample :
    (∃ e ∈ [("ERROR: 0:10: 'a' : bad".toList), ("sh: permission denied".toList)],
      permissionDeniedLine e = true) ∧
    validate_contents ⟨"x".toList⟩
        [("ERROR: 0:10: 'a' : bad".toList), ("sh: permission denied".toList)]
      = ⟨false, Except.error ()⟩ ∧
    validate_contents ⟨"x".toList⟩
        [("ERROR: 0:10: 'a' : bad".toList), ("sh: permission denied".toList)]
      ≠ ⟨true, Except.ok []⟩ := by
  decide

/-- Claim C2 as amended: if some output line matches the permission-denied
signature and every line before it processes without an `IndexError`, the
run short-circuits at the first permission-denied line reached: the alert
is surfaced and the empty list is returned, discarding any diagnostics
parsed before it, with no retry (the loop terminates at once). -/
theorem claim_C2_amended (v : View) (pre post : List (List Char)) (pd : List Char)
    (hpd : permissionDeniedLine pd = true)
    (hpre : ∀ e ∈ pre, processLine v e ≠ LineStep.crash) :
    validate_contents v (pre ++ pd :: post) = ⟨true, Except.ok []⟩ := by
  rw [validate_contents]
  exact processLinesFrom_reach_permission v pre pd post []
    (by simp [processLine, hpd]) hpre

/-- Witness for the amended C2: one in-bounds diagnostic is parsed before
the permission-denied line; it is discarded and the empty list returned. -/
theorem claim_C2_witness :
    validate_contents ⟨"x".toList⟩
        ([("ERROR: 0:1: '' : msg".toList)]
          ++ ("permission denied: cannot execute".toList) :: [("junk".toList)])
      = ⟨true, Except.ok []⟩ :=
  claim_C2_amended ⟨"x".toList⟩ [("ERROR: 0:1: '' : msg".toList)] [("junk".toList)]
    ("permission denied: cannot execute".toList) (by decide) (by decide)

/-- Claim C3 counterexample: in a one-line document `x`, the out-of-range
line `ERROR: 0:5: '' : far` aborts the whole run with the propagated
`IndexError` instead of being skipped: the following well-formed in-bounds
line — which alone yields one diagnostic — is never parsed and no
diagnostic set is returned. -/
theorem claim_C3_counterexample :
    validate_contents ⟨"x".toList⟩
        [("ERROR: 0:5: '' : far".toList), ("ERROR: 0:1: '' : msg".toList)]
      = ⟨false, Except.error ()⟩ ∧
    validate_contents ⟨"x".toList⟩ [("ERROR: 0:1: '' : msg".toList)]
      = ⟨false, Except.ok [⟨⟨0, 1⟩, "msg".toList⟩]⟩ := by
  decide

/-- Claim C3 as amended: a diagnostic line whose converted `sourceLine`
falls outside the document (outside Python's index range for the line
list) raises an uncaught `IndexError` at `fileLines[errorLine]` that
aborts the entire run: no diagnostic list is returned and the remaining
lines are not parsed; the preceding lines contribute nothing. -/
theorem claim_C3_amended (v : View) (pre post : List (List Char)) (e : List Char)
    (n : Nat) (tok desc : List Char)
    (hpd : permissionDeniedLine e = false) (hcm : commentLine e = false)
    (hparse : parseErrorLine e = some (n, tok, desc))
    (hoob : pyIndex v.lines ((n : Int) - 1) = none)
    (hpre : ∀ x ∈ pre, processLine v x = LineStep.skip
      ∨ ∃ d, processLine v x = LineStep.diag d) :
    validate_contents v (pre ++ e :: post) = ⟨false, Except.error ()⟩ := by
  have he : processLine v e = LineStep.crash := by
    simp only [processLine, hpd, hcm, Bool.false_eq_true, if_false, hparse, hoob]
  rw [validate_contents]
  exact processLinesFrom_reach_crash v pre e post [] he hpre

/-- Witness for the amended C3: a banner line precedes the out-of-range
diagnostic line; the run aborts with the index error. -/
theorem claim_C3_witness :
    validate_contents ⟨"x".toList⟩
        ([("#### banner".toList)]
          ++ ("ERROR: 0:7: '' : oops".toList) :: [("ERROR: 0:1: '' : msg".toList)])
      = ⟨false, Except.error ()⟩ :=
  claim_C3_amended ⟨"x".toList⟩ [("#### banner".toList)] [("ERROR: 0:1: '' : msg".toList)]
    ("ERROR: 0:7: '' : oops".toList) 7 [] ("oops".toList)
    (by decide) (by decide) (by decide) (by decide)
    (fun x hx => by
      have hx' : x = "#### banner".toList := by simpa using hx
      subst hx'
      left
      decide)

/-- Claim C5, evaluated at the input that exposes the bug: the gate of
lines 175-178 tests `(frag|vert)$` with no dot, so the name `afrag` — which
does not end in `.frag` or `.vert` — passes the gate and the pipeline runs
for it (for an enabled GLSL view), contradicting the code's own status
message of line 255; a genuinely unaccepted name such as `a.txt` does get
that status and no invocation. -/
theorem claim_C5_bug :
    is_valid_file_ending ("afrag".toList) = true ∧
    run_validator (some 1) (some ("GLSL".toList)) ("afrag".toList) = ⟨true, none⟩ ∧
    (".frag".toList).isSuffixOf ("afrag".toList) = false ∧
    (".vert".toList).isSuffixOf ("afrag".toList) = false ∧
    run_validator (some 1) (some ("GLSL".toList)) ("a.txt".toList)
      = ⟨false, some ("File name must end in .frag or .vert".toList)⟩ := by
  decide

/-- Claim C6 counterexample: starting from a listener with no stored
diagnostics, only document A (`a.frag`, GLSL, buffer `foo`) is validated;
the cursor query then issued for a distinct document B (an ESSL view that
was never validated) returns document A's diagnostic message instead of
none, because `self.errors` is one field on the shared event listener, not
per-document state. -/
theorem claim_C6_counterexample :
    ((run_validator_full ⟨none⟩ (some 1) (some ("GLSL".toList)) ("a.frag".toList)
        ⟨"foo".toList⟩ [("ERROR: 0:1: '' : broken".toList)]).1).errors
      = some [⟨⟨0, 3⟩, "broken".toList⟩] ∧
    on_selection_modified
        (run_validator_full ⟨none⟩ (some 1) (some ("GLSL".toList)) ("a.frag".toList)
          ⟨"foo".toList⟩ [("ERROR: 0:1: '' : broken".toList)]).1
        (some ("ESSL".toList)) [⟨1, 1⟩]
      = some ("broken".toList) := by
  decide

/-- Claim C6 as amended: diagnostic state is process-wide, not
per-document: a validation run of any document replaces the single shared
`errors` field with that run's diagnostics, and the cursor query on any
shader view — whichever document it shows — consults exactly that shared
set. -/
theorem claim_C6_amended (st : ListenerState) (enabled : Option Int)
    (synTagA : Option (List Char)) (fileName : List Char) (v : View)
    (errlines : List (List Char)) (errs : List GLShaderError) (al : Bool)
    (synTagB : Option (List Char)) (sels : List Region)
    (hrun : (run_validator enabled synTagA fileName).ran = true)
    (hval : validate_contents v errlines = ⟨al, Except.ok errs⟩)
    (hB : is_glsl_or_essl synTagB = true) :
    (run_validator_full st enabled synTagA fileName v errlines).1.errors = some errs ∧
    on_selection_modified (run_validator_full st enabled synTagA fileName v errlines).1
        synTagB sels = firstCovering errs sels := by
  have hst : (run_validator_full st enabled synTagA fileName v errlines).1
      = ⟨some errs⟩ := by
    simp [run_validator_full, hrun, hval]
  rw [hst]
  exact ⟨rfl, by simp [on_selection_modified, hB]⟩

/-- Witness for the amended C6: document `b.vert` is validated and a query
for another GLSL view consults that run's diagnostics. -/
theorem claim_C6_witness :
    (run_validator_full ⟨none⟩ (some 1) (some ("GLSL".toList)) ("b.vert".toList)
        ⟨"bar".toList⟩ [("ERROR: 0:1: 'r' : nope".toList)]).1.errors
      = some [⟨⟨2, 3⟩, "nope".toList⟩] ∧
    on_selection_modified
        (run_validator_full ⟨none⟩ (some 1) (some ("GLSL".toList)) ("b.vert".toList)
          ⟨"bar".toList⟩ [("ERROR: 0:1: 'r' : nope".toList)]).1
        (some ("other GLSL view".toList)) [⟨0, 0⟩]
      = firstCovering [⟨⟨2, 3⟩, "nope".toList⟩] [⟨0, 0⟩] :=
  claim_C6_amended ⟨none⟩ (some 1) (some ("GLSL".toList)) ("b.vert".toList)
    ⟨"bar".toList⟩ [("ERROR: 0:1: 'r' : nope".toList)] [⟨⟨2, 3⟩, "nope".toList⟩] false
    (some ("other GLSL view".toList)) [⟨0, 0⟩]
    (by decide) (by decide) (by decide)

end GLShaderValidator
